import Mathlib

/-!
Verification of the record-harvesting and field-normalization engine of
`steamily_app.py` (loan/sale history viewer).

The JSON data model and every operation below are shallow embeddings of the
Python source: `_looks_like_record`, `harvest_records`, `_coerce_date`,
`_normalize_row`, `make_dataframe` and `make_focus_loans_table`.  Python
dicts are modelled as ordered association lists (Python dicts preserve
insertion order), pandas DataFrames as a column-name list plus aligned rows
of cells, and pandas null markers (NaN/NaT/<NA>) as a single `Cell.na`.
-/

/-! ## JSON data model

A parsed JSON value: the closed sum {null, bool, number, string, array,
object}.  Arrays and objects are mutual inductives so that all traversals
are structural and reduce by `rfl`.  Numbers are modelled as integers; no
claim involves non-integral numbers. -/

mutual
inductive JSON where
  | null
  | bool (b : Bool)
  | num (n : Int)
  | str (s : String)
  | arr (xs : JArr)
  | obj (fs : JObj)
inductive JArr where
  | nil
  | cons (hd : JSON) (tl : JArr)
inductive JObj where
  | nil
  | cons (k : String) (v : JSON) (tl : JObj)
end

/-- The field list of a JSON object, in source order. -/
def JObj.fields : JObj → List (String × JSON)
  | .nil => []
  | .cons k v tl => (k, v) :: tl.fields

/-- Build a JSON array from a Lean list (notation helper for literals). -/
def JArr.ofList : List JSON → JArr
  | [] => .nil
  | x :: xs => .cons x (JArr.ofList xs)

/-- Build a JSON object from a Lean list of fields (notation helper). -/
def JObj.ofList : List (String × JSON) → JObj
  | [] => .nil
  | (k, v) :: xs => .cons k v (JObj.ofList xs)

/-- A raw record, as harvested: a Python dict modelled as an ordered
association list from string keys to JSON values. -/
abbrev RawRecord := List (String × JSON)

/-- First-match lookup in an association list; models Python `d[c]` /
`c in d` on a dict (dict keys are unique, so first match is the match). -/
def dictGet (d : RawRecord) (k : String) : Option JSON :=
  (d.find? (fun kv => kv.1 == k)).map (fun kv => kv.2)

/-! ## Key vocabularies (module constants of the source) -/

/-- `LOAN_KEYS` of the source. -/
def LOAN_KEYS : List String :=
  ["lender", "lender1", "lender2", "lenderName", "lenderName1", "lenderName2",
   "loanAmount", "amountLoan", "loanAmt", "loanType", "loanToValue", "lienType",
   "interestRate", "loanTerm", "loanDueDate", "recordingDate", "documentDate",
   "docNumber", "loanTypeCode", "lenderLastName", "beneficiary", "date", "term"]

/-- `SALE_KEYS` of the source. -/
def SALE_KEYS : List String :=
  ["saleAmount", "salePrice", "price", "saleAmt",
   "deedType", "transferTax", "buyerName", "sellerName", "saleTransDate",
   "saleRecDate"]

/-- `DATE_KEYS` of the source. -/
def DATE_KEYS : List String :=
  ["documentDate", "recordingDate", "saleDate", "saleTransDate", "saleRecDate",
   "contractDate", "date"]

/-- `_looks_like_record(d)`: true iff the key set of `d` meets
`LOAN_KEYS ∪ SALE_KEYS` (source: `len(set(d.keys()) & (LOAN_KEYS | SALE_KEYS)) > 0`). -/
def _looks_like_record (d : RawRecord) : Bool :=
  d.any (fun kv => LOAN_KEYS.contains kv.1 || SALE_KEYS.contains kv.1)

/-! ## Record harvester -/

mutual
/-- `harvest_records(obj)` of the source: pre-order depth-first walk
collecting every dict that `_looks_like_record` accepts; the dict itself is
appended (all keys preserved), then all its values are searched; list
elements are searched in order; scalars contribute nothing. -/
def harvest_records : JSON → List RawRecord
  | .obj fs =>
      (if _looks_like_record fs.fields then [fs.fields] else []) ++ harvestObj fs
  | .arr xs => harvestArr xs
  | _ => []
/-- Harvesting of the elements of a JSON array, in order. -/
def harvestArr : JArr → List RawRecord
  | .nil => []
  | .cons x xs => harvest_records x ++ harvestArr xs
/-- Harvesting of the values of a JSON object, in field order. -/
def harvestObj : JObj → List RawRecord
  | .nil => []
  | .cons _ v fs => harvest_records v ++ harvestObj fs
end

mutual
/-- Specification-side enumeration: the list of every object (mapping)
occurrence nested anywhere in a JSON value — the value itself included —
in pre-order depth-first encounter order.  Written from the spec's
traversal description, independent of the harvester's acceptance test. -/
def subobjects : JSON → List RawRecord
  | .obj fs => fs.fields :: subobjectsObj fs
  | .arr xs => subobjectsArr xs
  | _ => []
/-- Object occurrences inside the elements of an array, in order. -/
def subobjectsArr : JArr → List RawRecord
  | .nil => []
  | .cons x xs => subobjects x ++ subobjectsArr xs
/-- Object occurrences inside the values of an object, in field order. -/
def subobjectsObj : JObj → List RawRecord
  | .nil => []
  | .cons _ v fs => subobjects v ++ subobjectsObj fs
end

/-! ## Dates

Date coercion in the source delegates to external libraries
(`dateutil.parser.parse` / `pandas.to_datetime`).  `parseDate` below is
modelled from the spec: a locale-agnostic parse restricted to the three
formats the spec exercises — ISO `YYYY-MM-DD`, slash `M/D/YYYY`
(month first, the library default), and `MonthName D, YYYY` — with
calendar validation (leap years, days-in-month, years 1..9999 as in
Python's `datetime`); every other string fails to parse. -/

/-- A calendar date (the result of a successful parse, time-of-day
truncated). -/
structure PDate where
  year : Nat
  month : Nat
  day : Nat

/-- Gregorian leap-year rule. -/
def isLeapYear (y : Nat) : Bool :=
  (y % 4 == 0 && y % 100 != 0) || y % 400 == 0

/-- Number of days of month `m` of year `y`. -/
def daysInMonth (y m : Nat) : Nat :=
  if m == 2 then (if isLeapYear y then 29 else 28)
  else if m == 4 || m == 6 || m == 9 || m == 11 then 30
  else 31

/-- Calendar validation: year 1..9999 (Python `datetime` bounds), month
1..12, day 1..days-in-month. -/
def mkValidDate (y m d : Nat) : Option PDate :=
  if 1 ≤ y && y ≤ 9999 && 1 ≤ m && m ≤ 12 && 1 ≤ d && d ≤ daysInMonth y m then
    some ⟨y, m, d⟩
  else none

/-- Split a character list at every occurrence of a separator character
(structural; models `str.split(sep)` for the one-character separators
used by the date formats). -/
def chSplit (sep : Char) : List Char → List (List Char)
  | [] => [[]]
  | c :: cs =>
      match chSplit sep cs with
      | [] => [[c]]
      | g :: gs => if c == sep then [] :: g :: gs else (c :: g) :: gs

/-- A digit sequence of length between `lo` and `hi`. -/
def digitsBetween (lo hi : Nat) (s : List Char) : Bool :=
  lo ≤ s.length && s.length ≤ hi && s.all Char.isDigit

/-- Numeric value of an all-digit character sequence (0 on malformed
input; callers guard with `digitsBetween`). -/
def digitsVal (s : List Char) : Nat :=
  s.foldl (fun acc c => acc * 10 + (c.toNat - 48)) 0

/-- ISO format `YYYY-MM-DD`. -/
def parseISO (s : String) : Option PDate :=
  match chSplit '-' s.data with
  | [y, m, d] =>
      if digitsBetween 4 4 y && digitsBetween 2 2 m && digitsBetween 2 2 d then
        mkValidDate (digitsVal y) (digitsVal m) (digitsVal d)
      else none
  | _ => none

/-- Slash format `M/D/YYYY`, month first (the library default). -/
def parseSlash (s : String) : Option PDate :=
  match chSplit '/' s.data with
  | [m, d, y] =>
      if digitsBetween 1 2 m && digitsBetween 1 2 d && digitsBetween 4 4 y then
        mkValidDate (digitsVal y) (digitsVal m) (digitsVal d)
      else none
  | _ => none

/-- Full English month names, in order. -/
def monthNames : List String :=
  ["January", "February", "March", "April", "May", "June", "July",
   "August", "September", "October", "November", "December"]

/-- Index (1-based) of a full month name. -/
def monthIndex (w : String) : Option Nat :=
  (monthNames.indexOf? w).map (· + 1)

/-- Month-name format `MonthName D, YYYY` (e.g. `March 3, 2020`): the
middle word is the day followed by a comma. -/
def parseMonthName (s : String) : Option PDate :=
  match chSplit ' ' s.data with
  | [w, dc, y] =>
      match monthIndex (String.mk w) with
      | some m =>
          match dc.reverse with
          | ',' :: dayRev =>
              if digitsBetween 1 2 dayRev.reverse && digitsBetween 1 4 y then
                mkValidDate (digitsVal y) m (digitsVal dayRev.reverse)
              else none
          | _ => none
      | none => none
  | _ => none

/-- Modelled from the spec: the locale-agnostic date parse performed by the
external date libraries, restricted to the formats above. -/
def parseDate (s : String) : Option PDate :=
  (parseISO s).orElse (fun _ => (parseSlash s).orElse (fun _ => parseMonthName s))

/-- Decimal digit character of `n % 10`. -/
def digitChar (n : Nat) : Char := Char.ofNat (48 + n % 10)

/-- ISO-8601 calendar-date string `YYYY-MM-DD` (zero padded, as Python's
`date.isoformat()` for years up to 9999). -/
def PDate.isoformat (dt : PDate) : String :=
  String.mk [digitChar (dt.year / 1000), digitChar (dt.year / 100),
    digitChar (dt.year / 10), digitChar dt.year, '-',
    digitChar (dt.month / 10), digitChar dt.month, '-',
    digitChar (dt.day / 10), digitChar dt.day]

/-- `_coerce_date(v)` of the source: non-strings are returned unchanged; a
string is replaced by the ISO calendar-date string of its parse when the
parse succeeds, and returned unchanged when it fails (never raises). -/
def _coerce_date : JSON → JSON
  | .str s =>
      match parseDate s with
      | some dt => .str dt.isoformat
      | none => .str s
  | v => v

/-! ## Field normalizer -/

/-- The canonical-field alias table `colmap` of `_normalize_row`, in source
order: per canonical field, the priority-ordered list of source-key
aliases. -/
def colmap : List (String × List String) :=
  [("documentDate", ["documentDate", "docDate", "date"]),
   ("recordingDate", ["recordingDate", "saleRecDate"]),
   ("recordType", ["recordType", "doctype", "docType", "type"]),
   ("salePrice", ["saleAmount", "salePrice", "price", "saleAmt"]),
   ("deedType", ["deedType"]),
   ("loanAmount", ["loanAmount", "amountLoan", "loanAmt", "amount"]),
   ("loanType", ["loanType", "loanTypeCode"]),
   ("lienType", ["lienType"]),
   ("interestRate", ["interestRate", "rate"]),
   ("loanTerm", ["loanTerm", "term"]),
   ("loanToValue", ["loanToValue", "ltv"]),
   ("docNumber", ["docNumber", "documentNumber", "trustDeedDocumentNumber"]),
   ("lenderName", ["lender", "lender1", "lenderName", "lenderName1",
                   "lenderLastName", "beneficiary"]),
   ("buyerName", ["buyerName"]),
   ("sellerName", ["sellerName"]),
   ("saleDate", ["saleDate", "saleTransDate", "contractDate", "date"])]

/-- Models Python `v in (None, "")`: true exactly for null and the empty
string. -/
def isNoneOrEmpty : JSON → Bool
  | .null => true
  | .str s => s == ""
  | _ => false

/-- The inner candidate loop of `_normalize_row`: the value of the first
alias in `candidates` that is present in `d` with a value that is neither
null nor the empty string (`if c in d and d[c] not in (None, ""): ...;
break`); `none` when no candidate qualifies. -/
def pickAlias (d : RawRecord) (candidates : List String) : Option JSON :=
  candidates.findSome? (fun c =>
    match dictGet d c with
    | some v => if isNoneOrEmpty v then none else some v
    | none => none)

/-- The assignment loop of `_normalize_row`: one output entry per canonical
field whose alias list produced a value, in `colmap` order (fields with no
qualifying alias are omitted, not set to null). -/
def normalizeAssign (d : RawRecord) : RawRecord :=
  colmap.filterMap (fun p => (pickAlias d p.2).map (fun v => (p.1, v)))

/-- Suffix test on character lists (structural `endswith`). -/
def endsWithChars (suffix l : List Char) : Bool :=
  l.reverse.take suffix.length == suffix.reverse

/-- The date-coercion condition of `_normalize_row`:
`k in DATE_KEYS or k.lower().endswith("date")` (the keys tested are the
fixed ASCII canonical field names, for which `lower()` is ASCII
lowering). -/
def isDateCol (k : String) : Bool :=
  DATE_KEYS.contains k || endsWithChars "date".data (k.data.map Char.toLower)

/-- `_normalize_row(d)` of the source: the assignment loop followed by the
date-coercion loop over the assigned keys. -/
def _normalize_row (d : RawRecord) : RawRecord :=
  (normalizeAssign d).map (fun kv =>
    (kv.1, if isDateCol kv.1 then _coerce_date kv.2 else kv.2))

/-- Specification-side qualification: alias `c` is present in `d` with a
non-null, non-empty value. -/
def qualifies (d : RawRecord) (c : String) : Bool :=
  match dictGet d c with
  | some v => !(isNoneOrEmpty v)
  | none => false

/-! ## Python stringification

`make_dataframe` drops a row when `str(v).strip()` is empty for every
value.  `pyStr` models Python `str()` and `pyRepr` models `repr()` (used by
`str()` on container elements); quoting of exotic characters inside
`repr` of strings is immaterial to the claims (only trimmed emptiness is
ever consumed) and is modelled as plain single quotes. -/

mutual
/-- Models Python `str(v)` on a JSON value. -/
def pyStr : JSON → String
  | .null => "None"
  | .bool true => "True"
  | .bool false => "False"
  | .num n => toString n
  | .str s => s
  | .arr xs => "[" ++ pyReprArr xs ++ "]"
  | .obj fs => "\x7b" ++ pyReprObj fs ++ "\x7d"
/-- Models Python `repr(v)` on a JSON value. -/
def pyRepr : JSON → String
  | .null => "None"
  | .bool true => "True"
  | .bool false => "False"
  | .num n => toString n
  | .str s => "\x27" ++ s ++ "\x27"
  | .arr xs => "[" ++ pyReprArr xs ++ "]"
  | .obj fs => "\x7b" ++ pyReprObj fs ++ "\x7d"
/-- Comma-joined `repr` of array elements. -/
def pyReprArr : JArr → String
  | .nil => ""
  | .cons x xs => pyRepr x ++ pyReprArrTail xs
/-- Elements after the first, each preceded by a comma separator. -/
def pyReprArrTail : JArr → String
  | .nil => ""
  | .cons x xs => ", " ++ pyRepr x ++ pyReprArrTail xs
/-- Comma-joined `repr` of object entries. -/
def pyReprObj : JObj → String
  | .nil => ""
  | .cons k v fs => "\x27" ++ k ++ "\x27: " ++ pyRepr v ++ pyReprObjTail fs
/-- Entries after the first, each preceded by a comma separator. -/
def pyReprObjTail : JObj → String
  | .nil => ""
  | .cons k v fs => ", " ++ "\x27" ++ k ++ "\x27: " ++ pyRepr v ++ pyReprObjTail fs
end

/-! ## Table builder (pandas DataFrame model)

A DataFrame is a list of column names plus rows of cells aligned with the
columns.  `Cell.na` is the single null marker (NaN / NaT / <NA>);
`Cell.date` is a parsed timestamp (calendar date — all inputs are plain
dates); `Cell.val` is an untyped Python object cell. -/

inductive Cell where
  | val (j : JSON)
  | date (d : PDate)
  | na

structure DF where
  cols : List String
  rows : List (List Cell)

/-- Models `pandas.isna` (negated) on a cell: `na` and Python `None` are
null; everything else is non-null. -/
def notnaCell : Cell → Bool
  | .na => false
  | .val .null => false
  | _ => true

/-- Models element-wise `pd.to_datetime(·, errors="coerce")`: a string is
parsed (failure gives NaT), nulls give NaT, an existing timestamp passes
through.  Other scalars (which pandas would read as epoch offsets) and
containers are modelled as NaT; no claim involves non-string values in a
date column. -/
def toDatetimeCell : Cell → Cell
  | .val (.str s) =>
      match parseDate s with
      | some dt => .date dt
      | none => .na
  | .date dt => .date dt
  | _ => .na

/-- Whitespace characters stripped by Python `str.strip()` (the ASCII
ones; no claim involves exotic unicode whitespace). -/
def isSpaceChar (c : Char) : Bool :=
  c == ' ' || c == '\t' || c == '\n' || c == '\r'

/-- Models Python `s.strip()`: drop whitespace from both ends. -/
def strip (s : String) : String :=
  String.mk (((s.data.dropWhile isSpaceChar).reverse.dropWhile isSpaceChar).reverse)

/-- Row-elision test of `make_dataframe`:
`any(str(v).strip() for v in r.values())`. -/
def keepRow (r : RawRecord) : Bool :=
  r.any (fun kv => strip (pyStr kv.2) != "")

/-- Column list of `pd.DataFrame(rows)`: the union of the rows' keys in
first-appearance order. -/
def dfCols (rows : List RawRecord) : List String :=
  (rows.flatMap (fun r => r.map (fun kv => kv.1))).eraseDups

/-- The three designated date columns of `make_dataframe`. -/
def designatedDateCols : List String := ["documentDate", "recordingDate", "saleDate"]

/-- Cell of a normalized row at a column: the value when the key is
present, NaN when absent. -/
def cellOf (r : RawRecord) (c : String) : Cell :=
  match dictGet r c with
  | some v => .val v
  | none => .na

/-- `make_dataframe(records)` of the source: normalize every record, drop
rows whose every value stringifies to whitespace, return the explicitly
empty frame when nothing remains, otherwise align rows with the
first-appearance column list and parse the designated date columns with
`pd.to_datetime(errors="coerce")`. -/
def make_dataframe (records : List RawRecord) : DF :=
  let kept := (records.map _normalize_row).filter keepRow
  if kept.isEmpty then ⟨[], []⟩
  else
    let cols := dfCols kept
    ⟨cols, kept.map (fun r => cols.map (fun c =>
      if designatedDateCols.contains c then toDatetimeCell (cellOf r c)
      else cellOf r c))⟩

/-! ## Focus view builder -/

/-- Cell of an aligned DataFrame row at a named column (NaN when the
column is absent). -/
def rowCell (cols : List String) (r : List Cell) (c : String) : Cell :=
  match cols.indexOf? c with
  | some i => r.getD i .na
  | none => .na

/-- Best-available date column: the first of `saleDate`, `documentDate`,
`recordingDate` present in the column list. -/
def bestDateCol (cols : List String) : Option String :=
  ["saleDate", "documentDate", "recordingDate"].find? (fun c => cols.contains c)

/-- The loan-type relabeling lookup of the source
(`df["loanType"].replace(...)`): known codes are replaced, every other
cell passes through unchanged. -/
def replaceLoanType : Cell → Cell
  | .val (.str "CONV") => .val (.str "Conventional")
  | .val (.str "FHA") => .val (.str "FHA")
  | .val (.str "VA") => .val (.str "VA")
  | .val (.str "HELOC") => .val (.str "HELOC")
  | c => c

/-- One row of the in-construction focus view: the `Purchase Date` cell,
and the `Loan Type` / `Lender Name` cells when those view columns exist
(`none` = column absent, `Cell.na` = null value). -/
structure VRow where
  pd : Cell
  lt : Option Cell
  ln : Option Cell

/-- Build the view row of one table row: `Purchase Date` from the best
date column through `to_datetime`, `Loan Type` through the relabeling,
`Lender Name` copied. -/
def mkVRow (cols : List String) (bd : String) (hasLT hasLN : Bool)
    (r : List Cell) : VRow :=
  { pd := toDatetimeCell (rowCell cols r bd),
    lt := if hasLT then some (replaceLoanType (rowCell cols r "loanType")) else none,
    ln := if hasLN then some (rowCell cols r "lenderName") else none }

/-- The retention test of the source: with both view columns present a row
needs a non-null in one of them; with exactly one present, in that one;
with neither present the source applies no filter (the `if/elif` chain
has no `else`), so every row is kept. -/
def retainVRow (hasLT hasLN : Bool) (v : VRow) : Bool :=
  if hasLT && hasLN then
    notnaCell (v.lt.getD .na) || notnaCell (v.ln.getD .na)
  else if hasLT then notnaCell (v.lt.getD .na)
  else if hasLN then notnaCell (v.ln.getD .na)
  else true

/-- Calendar order on dates: `x ≤ y` lexicographically on
(year, month, day). -/
def dateLeB (x y : PDate) : Bool :=
  x.year < y.year || (x.year == y.year && (x.month < y.month ||
    (x.month == y.month && x.day ≤ y.day)))

/-- Sort-order key of `sort_values(by="Purchase Date", ascending=False)`:
`a` may come before `b` iff `b` is NaT or both are timestamps with
`a ≥ b` (descending, `na_position="last"`). -/
def pdLeB (a b : Cell) : Bool :=
  match a, b with
  | .date da, .date db => dateLeB db da
  | _, .date _ => false
  | _, _ => true

/-- The sort relation on view rows induced by `pdLeB` on their `Purchase
Date` cells. -/
def vrowLe (a b : VRow) : Prop := pdLeB a.pd b.pd = true

instance : DecidableRel vrowLe := fun a b => Bool.decEq (pdLeB a.pd b.pd) true

/-- Sorting of the view rows by `Purchase Date` descending with nulls
last.  pandas' default sort kind is an unstable quicksort; it is modelled
by a stable insertion sort — the claims only concern the date order. -/
def sortVRows (l : List VRow) : List VRow :=
  l.insertionSort vrowLe

/-- `Year` derived from the `Purchase Date` cell (`view["Purchase
Date"].dt.year`; NaT gives NaN). -/
def yearCell : Cell → Cell
  | .date dt => .val (.num dt.year)
  | _ => .na

/-- Final stringification of `Purchase Date`
(`view["Purchase Date"].dt.date.astype("string")`; NaT gives <NA>). -/
def pdStringCell : Cell → Cell
  | .date dt => .val (.str dt.isoformat)
  | _ => .na

/-- Column list of the view right after construction (insertion order). -/
def focusViewCols (hasLT hasLN : Bool) : List String :=
  ["Purchase Date"] ++ (if hasLT then ["Loan Type"] else []) ++
    (if hasLN then ["Lender Name"] else [])

/-- Final column order of the focus view
(`[c for c in ["Year", "Purchase Date", "Loan Type", "Lender Name"] if c in view.columns]`). -/
def focusOrderedCols (hasLT hasLN : Bool) : List String :=
  ["Year", "Purchase Date"] ++ (if hasLT then ["Loan Type"] else []) ++
    (if hasLN then ["Lender Name"] else [])

/-- The final aligned row of the focus view for one retained view row. -/
def finalRow (hasLT hasLN : Bool) (v : VRow) : List Cell :=
  [yearCell v.pd, pdStringCell v.pd] ++
    (if hasLT then [v.lt.getD .na] else []) ++
    (if hasLN then [v.ln.getD .na] else [])

/-- `make_focus_loans_table(df)` of the source: an empty frame is returned
unchanged; with no date column the empty four-column frame is returned;
otherwise the view is built per `mkVRow`, filtered per `retainVRow`,
returned empty if nothing survives, else `Year` is added, the rows are
sorted by `Purchase Date` descending, the columns are reordered and
`Purchase Date` is stringified. -/
def make_focus_loans_table (df : DF) : DF :=
  if df.rows.isEmpty || df.cols.isEmpty then df
  else
    match bestDateCol df.cols with
    | none => ⟨["Purchase Date", "Year", "Loan Type", "Lender Name"], []⟩
    | some bd =>
      let hasLT := df.cols.contains "loanType"
      let hasLN := df.cols.contains "lenderName"
      let vrows := (df.rows.map (mkVRow df.cols bd hasLT hasLN)).filter
        (retainVRow hasLT hasLN)
      if vrows.isEmpty then ⟨focusViewCols hasLT hasLN, []⟩
      else ⟨focusOrderedCols hasLT hasLN, (sortVRows vrows).map (finalRow hasLT hasLN)⟩

/-- The canonical fields: the 16 keys of the alias table. -/
def canonicalFields : List String := colmap.map Prod.fst

/-- All alias keys of the alias table, over all canonical fields. -/
def aliasKeys : List String := (colmap.map (fun p => p.2)).flatten

/-! ## Focus-view definitions for the claims -/

/-- Specification-side retention predicate on a table row, per the
(amended) retention rule: with both canonical columns present, keep the
row iff `loanType` or `lenderName` is non-null; with exactly one present,
iff that one is non-null; with neither present no filter is applied. -/
def retainSpec (cols : List String) (r : List Cell) : Bool :=
  if cols.contains "loanType" && cols.contains "lenderName" then
    notnaCell (rowCell cols r "loanType") || notnaCell (rowCell cols r "lenderName")
  else if cols.contains "loanType" then notnaCell (rowCell cols r "loanType")
  else if cols.contains "lenderName" then notnaCell (rowCell cols r "lenderName")
  else true

/-- Ordering relation of claim C5 on final `Purchase Date` cells: the
later cell is null, or both cells are ISO date strings with the earlier
date at least the later one (descending, nulls last). -/
def pdCellOrd (a b : Cell) : Prop :=
  b = .na ∨ ∃ da db : PDate, a = .val (.str da.isoformat)
    ∧ b = .val (.str db.isoformat) ∧ dateLeB db da = true

/-- Wrap a JSON value in `n` nested one-field objects whose key is outside
the loan/sale vocabulary. -/
def nestObj : Nat → JSON → JSON
  | 0, j => j
  | n + 1, j => .obj (.cons "wrapper" (nestObj n j) .nil)

/-- The end-to-end record of the spec's acceptance test. -/
def demoRecord : RawRecord :=
  [("amountLoan", .num 250000), ("loanTypeCode", .str "CONV"),
   ("lender1", .str "Acme Bank"), ("saleTransDate", .str "2019-07-01")]

/-- The end-to-end document of the spec's acceptance test:
`{"property": {"salehistory": [record]}}`. -/
def demoDoc : JSON :=
  .obj (.ofList [("property", .obj (.ofList
    [("salehistory", .arr (.ofList [.obj (.ofList demoRecord)]))]))])

/-! ## Theorems -/

mutual
/-- Key lemma for C1, proved by mutual structural induction. -/
theorem harvest_eq_filter : ∀ j : JSON,
    harvest_records j = (subobjects j).filter _looks_like_record
  | .null => rfl
  | .bool _ => rfl
  | .num _ => rfl
  | .str _ => rfl
  | .arr xs => by
      simp only [harvest_records, subobjects, harvest_eq_filter_arr xs]
  | .obj fs => by
      simp only [harvest_records, subobjects, List.filter_cons,
        harvest_eq_filter_obj fs]
      cases h : _looks_like_record fs.fields <;> simp [h]
/-- Array case of `harvest_eq_filter`. -/
theorem harvest_eq_filter_arr : ∀ xs : JArr,
    harvestArr xs = (subobjectsArr xs).filter _looks_like_record
  | .nil => rfl
  | .cons x xs => by
      simp only [harvestArr, subobjectsArr, List.filter_append,
        harvest_eq_filter x, harvest_eq_filter_arr xs]
/-- Object case of `harvest_eq_filter`. -/
theorem harvest_eq_filter_obj : ∀ fs : JObj,
    harvestObj fs = (subobjectsObj fs).filter _looks_like_record
  | .nil => rfl
  | .cons k v fs => by
      simp only [harvestObj, subobjectsObj, List.filter_append,
        harvest_eq_filter v, harvest_eq_filter_obj fs]
end

/-- C1: `harvest_records(D)` is exactly the pre-order depth-first list of
object occurrences in `D` (at any depth, under any key, `D` itself
included), filtered by `_looks_like_record` — i.e. kept iff the key set
meets the loan/sale vocabulary.  This packages soundness (every returned
object passes `_looks_like_record`), completeness with multiplicity (every
record-like occurrence appears exactly once), identity (the original
mapping with all its keys is returned), and pre-order output order. -/
theorem harvest_records_sound_complete_ordered (D : JSON) :
    harvest_records D = (subobjects D).filter _looks_like_record :=
  harvest_eq_filter D

/-! ## Lemmas about lookup, alias selection and coercion -/

/-- Lookup commutes with a key-preserving value map. -/
theorem dictGet_mapValues (g : String → JSON → JSON) (l : RawRecord) (f : String) :
    dictGet (l.map (fun kv => (kv.1, g kv.1 kv.2))) f = (dictGet l f).map (g f) := by
  induction l with
  | nil => rfl
  | cons kv l ih =>
      by_cases h : kv.1 = f
      · subst h
        simp [dictGet, List.find?_cons]
      · have hb : (kv.1 == f) = false := by simpa using h
        simp [dictGet, List.find?_cons, hb] at ih ⊢
        exact ih

/-- The candidate loop is the first-qualifying-alias rule: its result is
the value of the first alias that `qualifies`. -/
theorem pickAlias_eq_find (d : RawRecord) (cs : List String) :
    pickAlias d cs = (cs.find? (qualifies d)).bind (dictGet d) := by
  induction cs with
  | nil => rfl
  | cons c cs ih =>
      simp only [pickAlias, List.findSome?_cons, List.find?_cons] at ih ⊢
      cases h : dictGet d c with
      | none =>
          have hq : qualifies d c = false := by simp [qualifies, h]
          simpa [h, hq] using ih
      | some v =>
          cases hv : isNoneOrEmpty v with
          | true =>
              have hq : qualifies d c = false := by simp [qualifies, h, hv]
              simpa [h, hv, hq] using ih
          | false =>
              have hq : qualifies d c = true := by simp [qualifies, h, hv]
              simp [h, hv, hq]

/-- A selected alias value is never null and never the empty string. -/
theorem pickAlias_not_none_or_empty (d : RawRecord) (cs : List String) (v : JSON)
    (h : pickAlias d cs = some v) : isNoneOrEmpty v = false := by
  rw [pickAlias_eq_find] at h
  cases hf : cs.find? (qualifies d) with
  | none => rw [hf] at h; simp at h
  | some c =>
      rw [hf] at h
      simp only [Option.some_bind] at h
      have hq := List.find?_some hf
      simp only [qualifies] at hq
      cases hd : dictGet d c with
      | none => rw [hd] at hq; simp at hq
      | some w =>
          rw [hd] at hq
          rw [hd] at h
          simp at h hq
          rw [← h]
          simpa using hq

/-- Lookup misses the assignment output when the key is not in the
alias-table key list. -/
theorem dictGet_assign_notMem (d : RawRecord) (L : List (String × List String))
    (f : String) (hf : f ∉ L.map Prod.fst) :
    dictGet (L.filterMap (fun p => (pickAlias d p.2).map (fun v => (p.1, v)))) f
      = none := by
  induction L with
  | nil => rfl
  | cons p L ih =>
      simp only [List.map_cons, List.mem_cons, not_or] at hf
      obtain ⟨hf1, hf2⟩ := hf
      simp only [List.filterMap_cons]
      cases hpa : pickAlias d p.2 with
      | none => exact ih hf2
      | some v =>
          have hb : (p.1 == f) = false := by simpa using fun hh => hf1 hh.symm
          simpa [dictGet, List.find?_cons, hb] using ih hf2

/-- Lookup on the assignment output of an alias table with distinct
canonical keys returns the alias selection of the key's own candidate
list. -/
theorem dictGet_assign (d : RawRecord) (L : List (String × List String))
    (hnd : (L.map Prod.fst).Nodup) (f : String) (cs : List String)
    (h : (f, cs) ∈ L) :
    dictGet (L.filterMap (fun p => (pickAlias d p.2).map (fun v => (p.1, v)))) f
      = pickAlias d cs := by
  induction L with
  | nil => simp at h
  | cons p L ih =>
      simp only [List.map_cons, List.nodup_cons] at hnd
      obtain ⟨hp1, hnd'⟩ := hnd
      rcases List.mem_cons.mp h with heq | hmem
      · subst heq
        simp only [List.filterMap_cons]
        cases hpa : pickAlias d cs with
        | none => exact dictGet_assign_notMem d L f hp1
        | some v => simp [dictGet, List.find?_cons]
      · have hf : f ≠ p.1 := by
          intro hh
          exact hp1 (hh ▸ List.mem_map.mpr ⟨(f, cs), hmem, rfl⟩)
        simp only [List.filterMap_cons]
        cases hpa : pickAlias d p.2 with
        | none => exact ih hnd' hmem
        | some v =>
            have hb : (p.1 == f) = false := by simpa using fun hh => hf hh.symm
            simpa [dictGet, List.find?_cons, hb] using ih hnd' hmem

/-- The canonical keys of the alias table are pairwise distinct. -/
theorem colmap_keys_nodup : (colmap.map Prod.fst).Nodup := by decide

/-- C2: for every input mapping `d` and every canonical field `f` of the
alias table, the output value at `f` is the value in `d` of the first
alias of `f`'s priority list that is present with a non-null, non-empty
value (later aliases are ignored even if present), modulo the date
coercion of C3; and `f` is omitted from the output exactly when no alias
qualifies (never set to null). -/
theorem normalize_row_first_alias_wins (d : RawRecord) (f : String)
    (cs : List String) (h : (f, cs) ∈ colmap) :
    dictGet (_normalize_row d) f =
      ((cs.find? (qualifies d)).bind (dictGet d)).map
        (fun v => if isDateCol f then _coerce_date v else v)
    ∧ (dictGet (_normalize_row d) f = none ↔ cs.find? (qualifies d) = none) := by
  have h1 : dictGet (_normalize_row d) f =
      (dictGet (normalizeAssign d) f).map
        (fun v => if isDateCol f then _coerce_date v else v) :=
    dictGet_mapValues (fun k v => if isDateCol k then _coerce_date v else v)
      (normalizeAssign d) f
  have h2 : dictGet (normalizeAssign d) f = pickAlias d cs :=
    dictGet_assign d colmap colmap_keys_nodup f cs h
  have hmain : dictGet (_normalize_row d) f =
      ((cs.find? (qualifies d)).bind (dictGet d)).map
        (fun v => if isDateCol f then _coerce_date v else v) := by
    rw [h1, h2, pickAlias_eq_find]
  refine ⟨hmain, ?_⟩
  rw [hmain]
  cases hf : cs.find? (qualifies d) with
  | none => simp
  | some c =>
      have hq : qualifies d c = true := List.find?_some hf
      simp only [qualifies] at hq
      cases hd : dictGet d c with
      | none => rw [hd] at hq; simp at hq
      | some v => simp [hd]

/-- C3: within `_normalize_row`, every assigned field whose canonical name
is in the date-key vocabulary or case-insensitively ends with `date` — and
only those — has its assigned value passed through `_coerce_date`, which
never raises: it maps the three spec date formats to their ISO calendar
date and passes an unparseable string through unchanged. -/
theorem normalize_row_date_coercion :
    (∀ (d : RawRecord) (f : String),
      dictGet (_normalize_row d) f =
        (dictGet (normalizeAssign d) f).map
          (fun v => if isDateCol f then _coerce_date v else v))
    ∧ _coerce_date (.str "March 3, 2020") = .str "2020-03-03"
    ∧ _coerce_date (.str "2020-03-03") = .str "2020-03-03"
    ∧ _coerce_date (.str "03/03/2020") = .str "2020-03-03"
    ∧ _coerce_date (.str "not a date") = .str "not a date" :=
  ⟨fun d f => dictGet_mapValues
      (fun k v => if isDateCol k then _coerce_date v else v) (normalizeAssign d) f,
    rfl, rfl, rfl, rfl⟩

/-- Witness for C2 at a concrete record carrying two aliases of
`lenderName`: the first-priority alias `lender` wins. -/
theorem normalize_row_first_alias_wins_witness :
    dictGet (_normalize_row [("lender", JSON.str "A"), ("lenderName", JSON.str "B")])
      "lenderName" = some (JSON.str "A") :=
  (normalize_row_first_alias_wins
      [("lender", JSON.str "A"), ("lenderName", JSON.str "B")] "lenderName"
      ["lender", "lender1", "lenderName", "lenderName1", "lenderLastName", "beneficiary"]
      (by decide)).1.trans (by rfl)

/-- Boolean-to-propositional reading of `isNoneOrEmpty`. -/
theorem isNoneOrEmpty_false_iff (v : JSON) :
    isNoneOrEmpty v = false ↔ v ≠ .null ∧ v ≠ .str "" := by
  cases v <;> simp [isNoneOrEmpty]

/-- An ISO-formatted date string is never empty. -/
theorem isoformat_ne_empty (dt : PDate) : dt.isoformat ≠ "" := by
  intro hh
  simp [PDate.isoformat, String.ext_iff] at hh

/-- Date coercion sends a non-null, non-empty value to a non-null,
non-empty value. -/
theorem coerce_keeps_not_none_or_empty (v : JSON)
    (hne : isNoneOrEmpty v = false) :
    isNoneOrEmpty (_coerce_date v) = false := by
  cases v with
  | str s =>
      simp only [_coerce_date]
      cases hps : parseDate s with
      | some dt =>
          simpa [isNoneOrEmpty] using isoformat_ne_empty dt
      | none => exact hne
  | null => exact hne
  | bool b => exact hne
  | num n => exact hne
  | arr xs => exact hne
  | obj fs => exact hne

/-- C10: every entry of a normalized row has one of the 16 canonical field
names as its key, and a value that is neither null nor the empty string
(alias selection skips null/empty values; date coercion maps a qualifying
string either to a non-empty ISO date string or back to the original
value). -/
theorem normalize_row_output_invariant (d : RawRecord) (k : String) (v : JSON)
    (h : (k, v) ∈ _normalize_row d) :
    k ∈ canonicalFields ∧ v ≠ .null ∧ v ≠ .str "" ∧ canonicalFields.length = 16 := by
  simp only [_normalize_row, List.mem_map] at h
  obtain ⟨kv₀, h₀, heq⟩ := h
  simp only [normalizeAssign, List.mem_filterMap] at h₀
  obtain ⟨p, hp, hpo⟩ := h₀
  rw [Option.map_eq_some'] at hpo
  obtain ⟨v₀, hpick, hkv⟩ := hpo
  have hne := pickAlias_not_none_or_empty d p.2 v₀ hpick
  subst hkv
  simp only at heq
  obtain ⟨hk, hv⟩ := Prod.mk.injEq .. |>.mp heq
  subst hk
  have hval : isNoneOrEmpty v = false := by
    rw [← hv]
    by_cases hdc : isDateCol p.1 = true
    · simpa [hdc] using coerce_keeps_not_none_or_empty v₀ hne
    · simpa [hdc] using hne
  obtain ⟨hnn, hns⟩ := (isNoneOrEmpty_false_iff v).mp hval
  exact ⟨List.mem_map.mpr ⟨p, hp, rfl⟩, hnn, hns, rfl⟩

/-- Witness for C10 at a concrete record: `lender` maps to the canonical
field `lenderName` with its non-empty value. -/
theorem normalize_row_output_invariant_witness :
    "lenderName" ∈ canonicalFields ∧ JSON.str "Acme" ≠ .null
      ∧ JSON.str "Acme" ≠ .str "" ∧ canonicalFields.length = 16 :=
  normalize_row_output_invariant [("lender", JSON.str "Acme")] "lenderName"
    (JSON.str "Acme")
    (by
      rw [show _normalize_row [("lender", JSON.str "Acme")] =
        [("lenderName", JSON.str "Acme")] from rfl]
      exact List.mem_singleton.mpr rfl)

/-! ## Table-builder lemmas -/

/-- The row-elision test is the negation of "every value stringifies, after
trimming, to the empty string". -/
theorem keepRow_eq_not_all (r : RawRecord) :
    keepRow r = !(r.all (fun kv => strip (pyStr kv.2) == "")) := by
  induction r with
  | nil => rfl
  | cons kv r ih =>
      simp only [keepRow, List.any_cons, List.all_cons, Bool.not_and] at ih ⊢
      rw [ih]
      cases hb : (strip (pyStr kv.2) == "") <;> simp [bne, hb]

/-- C6: `make_dataframe` normalizes each record and drops exactly the rows
whose every value, converted to a string and trimmed, is empty; when
everything is dropped, the result is the explicitly empty table (a valid,
non-error value); and a record all of whose aliased values are null or
empty normalizes to the empty row, hence contributes no row. -/
theorem make_dataframe_empty_row_elision :
    (∀ records : List RawRecord,
      (make_dataframe records).rows.length =
        ((records.map _normalize_row).filter
          (fun r => !(r.all (fun kv => strip (pyStr kv.2) == "")))).length)
    ∧ (∀ records : List RawRecord,
        ((records.map _normalize_row).all
          (fun r => r.all (fun kv => strip (pyStr kv.2) == ""))) = true →
        make_dataframe records = ⟨[], []⟩)
    ∧ (∀ r : RawRecord,
        (aliasKeys.all (fun c => (dictGet r c).all isNoneOrEmpty)) = true →
        _normalize_row r = []) := by
  have hfilter : ∀ records : List RawRecord,
      (records.map _normalize_row).filter keepRow =
        (records.map _normalize_row).filter
          (fun r => !(r.all (fun kv => strip (pyStr kv.2) == ""))) :=
    fun records => List.filter_congr (fun r _ => keepRow_eq_not_all r)
  refine ⟨?_, ?_, ?_⟩
  · intro records
    by_cases hk : ((records.map _normalize_row).filter keepRow).isEmpty
    · have hnil := List.isEmpty_iff.mp hk
      simp [make_dataframe, hk, ← hfilter, hnil]
    · simp [make_dataframe, hk, ← hfilter]
  · intro records hall
    have hnil : (records.map _normalize_row).filter keepRow = [] := by
      rw [hfilter]
      refine List.filter_eq_nil_iff.mpr (fun r hr => ?_)
      have := List.all_eq_true.mp hall r hr
      simp [this]
    simp [make_dataframe, hnil]
  · intro r hall
    have hassign : normalizeAssign r = [] := by
      refine List.filterMap_eq_nil_iff.mpr (fun p hp => ?_)
      suffices h : pickAlias r p.2 = none by simp [h]
      rw [pickAlias_eq_find]
      have hfind : p.2.find? (qualifies r) = none := by
        refine List.find?_eq_none.mpr (fun c hc => ?_)
        have hcAlias : c ∈ aliasKeys :=
          List.mem_flatten.mpr ⟨p.2, List.mem_map.mpr ⟨p, hp, rfl⟩, hc⟩
        have hopt := List.all_eq_true.mp hall c hcAlias
        simp only [qualifies]
        cases hd : dictGet r c with
        | none => simp
        | some v =>
            rw [hd] at hopt
            simp only [Option.all_some] at hopt
            simp [hopt]
      rw [hfind]
      rfl
    simp [_normalize_row, hassign]

/-- Witness for C6: a record whose only aliased values are an empty string
and a null yields the empty table and the empty normalized row. -/
theorem make_dataframe_empty_row_elision_witness :
    make_dataframe [[("lender", JSON.str ""), ("saleTransDate", JSON.null)]] = ⟨[], []⟩
    ∧ _normalize_row [("lender", JSON.str ""), ("saleTransDate", JSON.null)] = [] :=
  ⟨make_dataframe_empty_row_elision.2.1 _ (by rfl),
   make_dataframe_empty_row_elision.2.2 _ (by rfl)⟩

/-- C7: a malformed date value is never an error.  The Field Normalizer's
coercion returns the original string when the parse fails; the Table
Builder turns an unparseable string in a designated date column into a
null cell; and the row filter of `make_dataframe` runs before date
conversion, so the row count never depends on date parsing — a row with a
malformed date is not dropped, and every function involved is total (no
exception path). -/
theorem malformed_dates_never_error :
    (∀ records : List RawRecord,
      (make_dataframe records).rows.length =
        ((records.map _normalize_row).filter keepRow).length)
    ∧ (∀ s : String, parseDate s = none →
        _coerce_date (.str s) = .str s ∧ toDatetimeCell (.val (.str s)) = .na)
    ∧ (∀ (s : String) (dt : PDate), parseDate s = some dt →
        _coerce_date (.str s) = .str dt.isoformat ∧
          toDatetimeCell (.val (.str s)) = .date dt) := by
  refine ⟨?_, ?_, ?_⟩
  · intro records
    by_cases hk : ((records.map _normalize_row).filter keepRow).isEmpty
    · have hnil := List.isEmpty_iff.mp hk
      simp [make_dataframe, hk, hnil]
    · simp [make_dataframe, hk]
  · intro s h
    constructor <;> simp [_coerce_date, toDatetimeCell, h]
  · intro s dt h
    constructor <;> simp [_coerce_date, toDatetimeCell, h]

/-- Witness for C7: the literal `"not a date"` falls back unchanged in the
normalizer and becomes a null in a typed date column, while a well-formed
date parses. -/
theorem malformed_dates_never_error_witness :
    (_coerce_date (.str "not a date") = .str "not a date"
      ∧ toDatetimeCell (.val (.str "not a date")) = .na)
    ∧ (_coerce_date (.str "2019-07-01") = .str (PDate.isoformat ⟨2019, 7, 1⟩)
      ∧ toDatetimeCell (.val (.str "2019-07-01")) = .date ⟨2019, 7, 1⟩) :=
  ⟨malformed_dates_never_error.2.1 "not a date" rfl,
   malformed_dates_never_error.2.2 "2019-07-01" ⟨2019, 7, 1⟩ rfl⟩

/-! ## Sorting lemmas -/

/-- `dateLeB` is total. -/
theorem dateLeB_total (x y : PDate) : dateLeB x y = true ∨ dateLeB y x = true := by
  simp only [dateLeB, Bool.or_eq_true, Bool.and_eq_true, decide_eq_true_eq,
    beq_iff_eq]
  omega

/-- `dateLeB` is transitive. -/
theorem dateLeB_trans (x y z : PDate) (h1 : dateLeB x y = true)
    (h2 : dateLeB y z = true) : dateLeB x z = true := by
  simp only [dateLeB, Bool.or_eq_true, Bool.and_eq_true, decide_eq_true_eq,
    beq_iff_eq] at h1 h2 ⊢
  omega

/-- The view-row sort relation is total. -/
theorem vrowLe_isTotal : IsTotal VRow vrowLe := by
  refine ⟨fun a b => ?_⟩
  unfold vrowLe
  cases ha : a.pd <;> cases hb : b.pd <;> simp [pdLeB]
  exact (dateLeB_total _ _).symm

/-- The view-row sort relation is transitive. -/
theorem vrowLe_isTrans : IsTrans VRow vrowLe := by
  refine ⟨fun a b c h1 h2 => ?_⟩
  unfold vrowLe at h1 h2 ⊢
  cases ha : a.pd <;> cases hb : b.pd <;> cases hc : c.pd <;>
    (rw [ha, hb] at h1; rw [hb, hc] at h2; simp [pdLeB] at h1 h2 ⊢ <;>
      try exact dateLeB_trans _ _ _ h2 h1)

/-- Every output of `toDatetimeCell` is NaT or a timestamp. -/
theorem toDatetimeCell_shape (c : Cell) :
    toDatetimeCell c = .na ∨ ∃ dt, toDatetimeCell c = .date dt := by
  cases c with
  | val j =>
      cases j with
      | str s =>
          simp only [toDatetimeCell]
          cases parseDate s with
          | some dt => exact Or.inr ⟨dt, rfl⟩
          | none => exact Or.inl rfl
      | null => exact Or.inl rfl
      | bool b => exact Or.inl rfl
      | num n => exact Or.inl rfl
      | arr xs => exact Or.inl rfl
      | obj fs => exact Or.inl rfl
  | date dt => exact Or.inr ⟨dt, rfl⟩
  | na => exact Or.inl rfl

/-- A list of null cells is vacuously ordered. -/
theorem pairwise_na (l : List Cell) (h : ∀ x ∈ l, x = Cell.na) :
    l.Pairwise pdCellOrd := by
  induction l with
  | nil => exact List.Pairwise.nil
  | cons a l ih =>
      refine List.Pairwise.cons (fun b hb => Or.inl (h b (List.mem_cons_of_mem a hb)))
        (ih (fun x hx => h x (List.mem_cons_of_mem a hx)))

/-- The second entry of a final focus row is the stringified `Purchase
Date` cell. -/
theorem finalRow_getD_one (hasLT hasLN : Bool) (v : VRow) :
    (finalRow hasLT hasLN v).getD 1 Cell.na = pdStringCell v.pd := rfl

/-- The structural core of C5, for any DataFrame whose rows are aligned
with its column list. -/
theorem focus_sorted_general (df : DF)
    (halign : ∀ r ∈ df.rows, r.length = df.cols.length) :
    ((make_focus_loans_table df).rows.map
      (fun r => r.getD 1 Cell.na)).Pairwise pdCellOrd := by
  have hsortpair : ∀ vrows : List VRow,
      ((sortVRows vrows).map (fun v => pdStringCell v.pd)).Pairwise pdCellOrd := by
    intro vrows
    haveI := vrowLe_isTotal
    haveI := vrowLe_isTrans
    have hsorted : (sortVRows vrows).Pairwise vrowLe :=
      List.sorted_insertionSort vrowLe vrows
    rw [List.pairwise_map]
    refine List.Pairwise.imp ?_ hsorted
    intro v w hle
    unfold vrowLe at hle
    cases hwpd : w.pd with
    | na => exact Or.inl rfl
    | val j =>
        rw [hwpd] at hle
        cases hvpd : v.pd <;> rw [hvpd] at hle <;> exact Or.inl rfl
    | date db =>
        rw [hwpd] at hle
        cases hvpd : v.pd with
        | na => rw [hvpd] at hle; simp [pdLeB] at hle
        | val j => rw [hvpd] at hle; simp [pdLeB] at hle
        | date da =>
            rw [hvpd] at hle
            simp only [pdLeB] at hle
            exact Or.inr ⟨da, db, rfl, rfl, hle⟩
  by_cases hempty : (df.rows.isEmpty || df.cols.isEmpty) = true
  · -- the frame is returned unchanged; its interesting cells are all null
    rw [make_focus_loans_table, if_pos hempty]
    rcases Bool.or_eq_true_iff.mp hempty with hr | hc
    · rw [List.isEmpty_iff.mp hr]
      exact List.Pairwise.nil
    · refine pairwise_na _ (fun x hx => ?_)
      obtain ⟨r, hrm, hrx⟩ := List.mem_map.mp hx
      have hlen : r.length = 0 := by
        rw [halign r hrm, List.isEmpty_iff.mp hc]
        rfl
      rw [List.eq_nil_of_length_eq_zero hlen] at hrx
      exact hrx.symm
  · rw [make_focus_loans_table, if_neg hempty]
    cases hbd : bestDateCol df.cols with
    | none => exact List.Pairwise.nil
    | some bd =>
        simp only []
        set hasLT := df.cols.contains "loanType" with hLT
        set hasLN := df.cols.contains "lenderName" with hLN
        set vrows := (df.rows.map (mkVRow df.cols bd hasLT hasLN)).filter
          (retainVRow hasLT hasLN) with hvr
        by_cases hkv : vrows.isEmpty = true
        · rw [if_pos hkv]
          exact List.Pairwise.nil
        · rw [if_neg hkv]
          have hmap : ((sortVRows vrows).map (finalRow hasLT hasLN)).map
                (fun r => r.getD 1 Cell.na)
              = (sortVRows vrows).map (fun v => pdStringCell v.pd) := by
            rw [List.map_map]
            exact List.map_congr_left (fun v _ => finalRow_getD_one hasLT hasLN v)
          exact hmap ▸ hsortpair vrows

/-- Rows produced by `make_dataframe` are aligned with its columns. -/
theorem make_dataframe_aligned (records : List RawRecord) :
    ∀ r ∈ (make_dataframe records).rows,
      r.length = (make_dataframe records).cols.length := by
  intro r hr
  by_cases hk : ((records.map _normalize_row).filter keepRow).isEmpty
  · simp [make_dataframe, hk] at hr
  · simp only [make_dataframe, hk, if_false] at hr ⊢
    obtain ⟨r₀, _, hrr⟩ := List.mem_map.mp hr
    rw [← hrr]
    simp

/-- C5: in the pipeline, the focus view is sorted by `Purchase Date`
descending: among any earlier/later pair of rows, either the later row's
`Purchase Date` is null, or both dates are present (as ISO strings) with
the earlier at least the later; in particular every null-date row is
placed after all rows with a date (nulls last). -/
theorem focus_sorted_desc_nulls_last (records : List RawRecord) :
    ((make_focus_loans_table (make_dataframe records)).rows.map
      (fun r => r.getD 1 Cell.na)).Pairwise pdCellOrd :=
  focus_sorted_general (make_dataframe records) (make_dataframe_aligned records)

/-! ## Focus-view retention (C4) -/

/-- The loan-type relabeling never changes nullity. -/
theorem notna_replaceLoanType (c : Cell) :
    notnaCell (replaceLoanType c) = notnaCell c := by
  unfold replaceLoanType
  split <;> rfl

/-- On a built view row, the source's retention test agrees with the
specification-side predicate on the underlying table row. -/
theorem retain_mkVRow_eq_spec (cols : List String) (bd : String) (r : List Cell) :
    retainVRow (cols.contains "loanType") (cols.contains "lenderName")
        (mkVRow cols bd (cols.contains "loanType") (cols.contains "lenderName") r)
      = retainSpec cols r := by
  cases hlt : cols.contains "loanType" <;> cases hln : cols.contains "lenderName"
  · have h1 : "loanType" ∉ cols := by simpa using hlt
    have h2 : "lenderName" ∉ cols := by simpa using hln
    simp [retainVRow, retainSpec, mkVRow, hlt, hln, h1, h2, notna_replaceLoanType]
  · have h1 : "loanType" ∉ cols := by simpa using hlt
    have h2 : "lenderName" ∈ cols := by simpa using hln
    simp [retainVRow, retainSpec, mkVRow, hlt, hln, h1, h2, notna_replaceLoanType]
  · have h1 : "loanType" ∈ cols := by simpa using hlt
    have h2 : "lenderName" ∉ cols := by simpa using hln
    simp [retainVRow, retainSpec, mkVRow, hlt, hln, h1, h2, notna_replaceLoanType]
  · have h1 : "loanType" ∈ cols := by simpa using hlt
    have h2 : "lenderName" ∈ cols := by simpa using hln
    simp [retainVRow, retainSpec, mkVRow, hlt, hln, h1, h2, notna_replaceLoanType]

/-- C4 (amended): for a non-empty table with a best-available date column,
the focus view consists of exactly the transformed rows that pass the
retention predicate: with both `loanType` and `lenderName` columns
present a row is retained iff one of the two values is non-null; with
exactly one present, iff that one is non-null; with neither present the
source applies no filter, so every row is retained (the original claim's
"empty view" is wrong there).  Without any date column the view has zero
rows. -/
theorem focus_retention_amended (df : DF) (h1 : df.rows ≠ []) (h2 : df.cols ≠ []) :
    (∀ bd, bestDateCol df.cols = some bd →
      (make_focus_loans_table df).rows.Perm
        ((df.rows.filter (retainSpec df.cols)).map
          (fun r => finalRow (df.cols.contains "loanType")
            (df.cols.contains "lenderName")
            (mkVRow df.cols bd (df.cols.contains "loanType")
              (df.cols.contains "lenderName") r))))
    ∧ (bestDateCol df.cols = none → (make_focus_loans_table df).rows = []) := by
  have hre : df.rows.isEmpty = false := by simpa [List.isEmpty_iff] using h1
  have hce : df.cols.isEmpty = false := by simpa [List.isEmpty_iff] using h2
  have hcond : ¬ ((df.rows.isEmpty || df.cols.isEmpty) = true) := by
    simp [hre, hce]
  constructor
  · intro bd hbd
    rw [make_focus_loans_table, if_neg hcond, hbd]
    simp only []
    set hasLT := df.cols.contains "loanType" with hLT
    set hasLN := df.cols.contains "lenderName" with hLN
    have hv : (df.rows.map (mkVRow df.cols bd hasLT hasLN)).filter
          (retainVRow hasLT hasLN)
        = (df.rows.filter (retainSpec df.cols)).map
            (mkVRow df.cols bd hasLT hasLN) := by
      rw [List.filter_map]
      congr 1
      refine List.filter_congr (fun r _ => ?_)
      rw [Function.comp_apply, hLT, hLN]
      exact retain_mkVRow_eq_spec df.cols bd r
    by_cases hkv : ((df.rows.map (mkVRow df.cols bd hasLT hasLN)).filter
        (retainVRow hasLT hasLN)).isEmpty = true
    · rw [if_pos hkv]
      have : (df.rows.filter (retainSpec df.cols)).map
          (mkVRow df.cols bd hasLT hasLN) = [] := by
        rw [← hv]
        exact List.isEmpty_iff.mp hkv
      rw [List.map_eq_nil_iff.mp this]
      exact List.Perm.nil
    · rw [if_neg hkv]
      refine ((List.perm_insertionSort vrowLe _).map (finalRow hasLT hasLN)).trans ?_
      rw [hv, List.map_map]
      exact List.Perm.refl _
  · intro hbd
    rw [make_focus_loans_table, if_neg hcond, hbd]

/-- Counterexample to C4 as stated: a one-row table with a `saleDate`
column but neither `loanType` nor `lenderName`.  The claim says the focus
view is empty; the source applies no retention filter there and keeps the
row. -/
theorem focus_retention_counterexample :
    (make_focus_loans_table
      ⟨["saleDate"], [[Cell.date ⟨2020, 1, 1⟩]]⟩).rows.length = 1 := rfl

/-- Witness for the amended C4 at a table with both columns and two rows,
one of which has null `loanType` and `lenderName`: exactly one row
survives. -/
theorem focus_retention_amended_witness :
    (make_focus_loans_table
      ⟨["saleDate", "loanType", "lenderName"],
       [[Cell.date ⟨2020, 1, 1⟩, Cell.val (.str "CONV"), Cell.na],
        [Cell.na, Cell.na, Cell.na]]⟩).rows.length = 1 :=
  ((focus_retention_amended
      ⟨["saleDate", "loanType", "lenderName"],
       [[Cell.date ⟨2020, 1, 1⟩, Cell.val (.str "CONV"), Cell.na],
        [Cell.na, Cell.na, Cell.na]]⟩
      (List.cons_ne_nil _ _) (List.cons_ne_nil _ _)).1 "saleDate" rfl).length_eq.trans rfl

/-! ## Harvester depth (C8) -/

/-- C8 (amended): the harvester imposes no maximum-depth guard.  Wrapping
the input in any number of non-record objects changes nothing: the
traversal recurses to the full nesting depth and returns the ordinary,
complete result — its interface has no error outcome at all, so no
distinct error kind is surfaced for deep input. -/
theorem harvest_no_depth_guard (n : Nat) (j : JSON) :
    harvest_records (nestObj n j) = harvest_records j := by
  induction n with
  | zero => rfl
  | succ n ih =>
      have hlook : _looks_like_record [("wrapper", nestObj n j)] = false := rfl
      simp [nestObj, harvest_records, harvestObj, JObj.fields, hlook, ih]

set_option maxRecDepth 4000 in
/-- Counterexample to C8 as stated: at nesting depth 300 — far beyond any
plausible defensive bound — the harvester still returns the ordinary
complete harvest, not an error. -/
theorem harvest_depth_counterexample :
    harvest_records (nestObj 300 (.obj (.ofList [("loanAmount", .num 1)]))) =
      [[("loanAmount", JSON.num 1)]] := rfl

/-! ## End-to-end acceptance test (C9) -/

/-- C9: on the spec's end-to-end document, the full pipeline produces a
focus view with exactly one row: Year 2019, Purchase Date `2019-07-01`,
Loan Type `Conventional` (the `CONV` code relabeled), Lender Name
`Acme Bank`. -/
theorem end_to_end_focus_view :
    make_focus_loans_table (make_dataframe (harvest_records demoDoc)) =
      ⟨["Year", "Purchase Date", "Loan Type", "Lender Name"],
       [[.val (.num 2019), .val (.str "2019-07-01"), .val (.str "Conventional"),
         .val (.str "Acme Bank")]]⟩ := rfl

